import Mathlib

/-!
Shallow embedding of the ASV sequence-comparison engine
(k-mer vectorizer, cosine similarity, reference database, query engine)
translated from the Python sources `model/kmer.py`, `search/database.py`
and `query/engine.py`.  Sequences are `List Char`; floating-point values
are idealized as exact rationals (vector entries) and reals (similarity
scores).
-/

namespace ASV

/-- The nucleotide alphabet, in the order the vectorizer enumerates it
(`bases = ['A', 'T', 'C', 'G']` in `KmerVectorizer.__init__`). -/
def baseChars : List Char := ['A', 'T', 'C', 'G']

/-- Preprocessing done by `KmerVectorizer.tokenize`:
`sequence.upper().replace('N', 'A')`, rendered per character. -/
def normalize (s : List Char) : List Char :=
  s.map (fun c => if c.toUpper = 'N' then 'A' else c.toUpper)

/-- The sliding windows `sequence[i:i+k]` for `i in range(len(sequence) - k + 1)`.
`List.range (s.length + 1 - k)` matches Python's `range`, which is empty
when `len(sequence) - k + 1 <= 0`. -/
def windows (k : Nat) (s : List Char) : List (List Char) :=
  (List.range (s.length + 1 - k)).map (fun i => (s.drop i).take k)

/-- `all(base in 'ATCG' for base in kmer)`. -/
def isValidKmer (w : List Char) : Bool :=
  w.all (fun c => baseChars.contains c)

/-- `KmerVectorizer.tokenize`: normalize, slide a window of length k,
keep only windows made of `A,T,C,G`. -/
def tokenize (k : Nat) (s : List Char) : List (List Char) :=
  (windows k (normalize s)).filter isValidKmer

/-- The vocabulary `[''.join(p) for p in itertools.product(bases, repeat=k)]`:
all length-k words over `baseChars`, leftmost position varying slowest. -/
def allKmers : Nat → List (List Char)
  | 0 => [[]]
  | k + 1 => baseChars.flatMap (fun b => (allKmers k).map (fun w => b :: w))

/-- Index of a k-mer in the vocabulary (the value `self.vocab[kmer]`,
the dict being built in enumeration order). -/
def vocabIndex (k : Nat) (w : List Char) : Nat :=
  (allKmers k).indexOf w

/-- The unnormalized count vector: entry i holds how often the i-th
vocabulary k-mer occurs among the tokenized k-mers
(`vector[self.vocab[kmer]] = count`, entries never written stay 0). -/
def rawCounts (k : Nat) (s : List Char) : List ℚ :=
  (allKmers k).map (fun w => ((tokenize k s).count w : ℚ))

/-- `KmerVectorizer.vectorize`: count vector, divided by the number of
valid k-mers when that number is positive (`if total > 0`). -/
def vectorize (k : Nat) (s : List Char) : List ℚ :=
  let total := (tokenize k s).length
  if total = 0 then rawCounts k s
  else (rawCounts k s).map (fun x => x / (total : ℚ))

/-- Dot product of two vectors (`np.dot`); extra entries of a longer
vector are ignored (in the program both vectors always have length 4^k). -/
def dotQ : List ℚ → List ℚ → ℚ
  | a :: as, b :: bs => a * b + dotQ as bs
  | _, _ => 0

/-- Sum of squares of a vector's entries. -/
def sumSq (v : List ℚ) : ℚ := dotQ v v

/-- Euclidean norm `np.linalg.norm(vec)`. -/
noncomputable def vecNorm (v : List ℚ) : ℝ :=
  Real.sqrt ((sumSq v : ℝ))

/-- `cosine_similarity(vec1, vec2)` from `model/kmer.py`: returns 0.0 when
either norm is zero, else the dot product over the product of norms. -/
noncomputable def cosine_similarity (v1 v2 : List ℚ) : ℝ :=
  if vecNorm v1 = 0 ∨ vecNorm v2 = 0 then 0
  else (dotQ v1 v2 : ℝ) / (vecNorm v1 * vecNorm v2)

/-- One reference entry, as stored in `ReferenceDatabase.sequences`:
`{sample_id, sequence_id, sequence, taxonomy, vector}`. -/
structure RefEntry where
  sample_id : String
  sequence_id : String
  sequence : List Char
  taxonomy : Option String
  vector : List ℚ
deriving DecidableEq

/-- The `ReferenceDatabase` object: a vectorizer (characterized by its k)
plus the list of entries. -/
structure ReferenceDatabase where
  k : Nat
  sequences : List RefEntry

/-- One match record produced by the query engine. -/
structure MatchResult where
  sample_id : String
  sequence_id : String
  similarity_score : ℝ
  taxonomy : Option String

/-- One parsed FASTA record `{'id': ..., 'seq': ...}`. -/
structure FastaRecord where
  id : String
  seq : List Char
deriving DecidableEq

/-- Python `str.strip()` (whitespace from both ends). -/
def pyStrip (s : List Char) : List Char :=
  ((s.dropWhile Char.isWhitespace).reverse.dropWhile Char.isWhitespace).reverse

/-- The accumulator loop shared by `parse_fasta_content` (engine) and
`parse_fasta` (database): each line is stripped; a line starting with `>`
closes the current record and opens a new one with id the rest of the
line; other non-empty lines are appended to the current sequence; the
last open record is emitted at the end. -/
def parseLoop : List (List Char) → Option (List Char) → List (List Char) → List FastaRecord
  | [], none, _ => []
  | [], some cid, cur => [⟨String.mk cid, cur.flatten⟩]
  | line :: rest, cid?, cur =>
    let l := pyStrip line
    if l.head? = some '>' then
      (match cid? with
       | none => []
       | some cid => [⟨String.mk cid, cur.flatten⟩]) ++ parseLoop rest (some l.tail) []
    else if l ≠ [] then parseLoop rest cid? (cur ++ [l])
    else parseLoop rest cid? cur

/-- `parse_fasta_content(fasta_content)`:
`fasta_content.strip().split('\n')` then the record loop. -/
def parse_fasta_content (content : List Char) : List FastaRecord :=
  parseLoop ((pyStrip content).splitOn '\n') none []

/-- Errors surfaced as `ValueError` by the engine. -/
inductive QueryError where
  | invalidInput (msg : String)
deriving DecidableEq

/-- The message `f"Sequence must be at least {k} bases long"`. -/
def minLenMsg (k : Nat) : String :=
  "Sequence must be at least " ++ toString k ++ " bases long"

/-- The match built for one reference entry from an already-encoded query
vector (the dict appended inside the similarity loop). -/
noncomputable def mkMatch (qv : List ℚ) (e : RefEntry) : MatchResult :=
  { sample_id := e.sample_id
    sequence_id := e.sequence_id
    similarity_score := cosine_similarity qv e.vector
    taxonomy := e.taxonomy }

/-- The list of matches in store order (`for ref_seq in self.reference_db.sequences`). -/
noncomputable def matchList (db : ReferenceDatabase) (s : List Char) : List MatchResult :=
  db.sequences.map (mkMatch (vectorize db.k s))

/-- Insert into a descending-sorted list, after all elements whose score
is not below the inserted one (so earlier elements win ties). -/
noncomputable def insertDesc (m : MatchResult) : List MatchResult → List MatchResult
  | [] => [m]
  | x :: xs =>
    if x.similarity_score ≤ m.similarity_score then m :: x :: xs
    else x :: insertDesc m xs

/-- Stable sort by `similarity_score` descending, modelling Python's
stable `list.sort(key=lambda x: x["similarity_score"], reverse=True)`. -/
noncomputable def sortDesc : List MatchResult → List MatchResult
  | [] => []
  | a :: l => insertDesc a (sortDesc l)

/-- Result of `query_single_sequence`. -/
structure QueryResult where
  query_sequence : List Char
  query_length : Nat
  matches_found : Nat
  results : List MatchResult

/-- `SequenceQueryEngine.query_single_sequence`: validate, vectorize,
score every entry, sort descending, keep the first `top_k`. -/
noncomputable def query_single_sequence (db : ReferenceDatabase) (sequence : List Char)
    (top_k : Nat) : Except QueryError QueryResult :=
  if sequence = [] ∨ sequence.length < db.k then
    .error (.invalidInput (minLenMsg db.k))
  else
    let top := (sortDesc (matchList db sequence)).take top_k
    .ok { query_sequence := sequence
          query_length := sequence.length
          matches_found := top.length
          results := top }

/-- One per-sequence item of a FASTA batch query. -/
structure FastaItem where
  query_sequence_id : String
  query_length : Nat
  top_matches : List MatchResult

/-- Result of `query_fasta_sequences`. -/
structure FastaQueryResult where
  total_sequences : Nat
  results : List FastaItem

/-- The item built for one parsed record inside `query_fasta_sequences`:
vectorize (with no length validation), score, sort, truncate. -/
noncomputable def fastaItem (db : ReferenceDatabase) (top_k : Nat)
    (r : FastaRecord) : FastaItem :=
  { query_sequence_id := r.id
    query_length := r.seq.length
    top_matches := (sortDesc (matchList db r.seq)).take top_k }

/-- `SequenceQueryEngine.query_fasta_sequences`: parse, reject an empty
record list, then process every record (without any per-sequence length
check). -/
noncomputable def query_fasta_sequences (db : ReferenceDatabase) (content : List Char)
    (top_k : Nat) : Except QueryError FastaQueryResult :=
  let seqs := parse_fasta_content content
  if seqs = [] then
    .error (.invalidInput "No valid sequences found in FASTA content")
  else
    .ok { total_sequences := seqs.length
          results := seqs.map (fastaItem db top_k) }

/-- What a saved pickle location can hold: a pickled entries list, or
bytes that `pickle.load` fails on. -/
inductive StoredBlob where
  | entries (es : List RefEntry) : StoredBlob
  | corrupt : StoredBlob

/-- The filesystem visible to `save`/`load`: contents by path. -/
def Storage := String → Option StoredBlob

/-- `ReferenceDatabase.save`: `pickle.dump(self.sequences, f)`, overwriting
the location. -/
def dbSave (db : ReferenceDatabase) (σ : Storage) (filepath : String) : Storage :=
  fun p => if p = filepath then some (.entries db.sequences) else σ p

/-- Fatal errors of `ReferenceDatabase.load`. -/
inductive LoadError where
  | unpicklingError
deriving DecidableEq

/-- `ReferenceDatabase.load`: `False` when the path does not exist;
otherwise unpickle and replace `self.sequences`, returning `True`;
an unpicklable file raises (the exception is not caught). -/
def dbLoad (db : ReferenceDatabase) (σ : Storage) (filepath : String) :
    Except LoadError (Bool × ReferenceDatabase) :=
  match σ filepath with
  | none => .ok (false, db)
  | some (.entries es) => .ok (true, { db with sequences := es })
  | some .corrupt => .error .unpicklingError

/-- `ReferenceDatabase.create_from_fasta`: every record becomes an entry
with the constant `sample_id` `"reference"`, taxonomy looked up in the
optional mapping, and a precomputed vector. -/
def create_from_fasta (db : ReferenceDatabase) (content : List Char)
    (taxonomy_mapping : Option (String → Option String)) : ReferenceDatabase :=
  { db with
    sequences := (parse_fasta_content content).map (fun r =>
      { sample_id := "reference"
        sequence_id := r.id
        sequence := r.seq
        taxonomy := match taxonomy_mapping with
          | some m => m r.id
          | none => none
        vector := vectorize db.k r.seq }) }

/-- `ReferenceDatabase.get_info`: the empty store reports only
`total_sequences = 0`; otherwise the full summary. -/
inductive DBInfo where
  | emptyInfo : DBInfo
  | fullInfo (total_sequences : Nat) (unique_samples : Nat)
      (sample_ids : List String) (vector_dimension : Nat) (k_mer_size : Nat) : DBInfo
deriving DecidableEq

/-- The `unique_samples` field a summary reports, when it reports one. -/
def DBInfo.uniqueSamples : DBInfo → Option Nat
  | .emptyInfo => none
  | .fullInfo _ u _ _ _ => some u

instance : Inhabited RefEntry :=
  ⟨{ sample_id := "", sequence_id := "", sequence := [], taxonomy := none, vector := [] }⟩

/-- `ReferenceDatabase.get_info` itself (`set(...)` modelled by `dedup`). -/
def get_info (db : ReferenceDatabase) : DBInfo :=
  if db.sequences = [] then .emptyInfo
  else
    .fullInfo db.sequences.length
      ((db.sequences.map (fun e => e.sample_id)).dedup).length
      ((db.sequences.map (fun e => e.sample_id)).dedup)
      ((db.sequences.headD default).vector.length)
      db.k

/-! ### Lemmas about the dot product and cosine similarity -/

theorem dotQ_self_nonneg (v : List ℚ) : 0 ≤ dotQ v v := by
  induction v with
  | nil => simp [dotQ]
  | cons a as ih =>
    simp only [dotQ]
    exact add_nonneg (mul_self_nonneg a) ih

theorem sumSq_nonneg (v : List ℚ) : 0 ≤ sumSq v :=
  dotQ_self_nonneg v

theorem dotQ_self_pos {v : List ℚ} (h : ∃ x ∈ v, x ≠ 0) : 0 < dotQ v v := by
  induction v with
  | nil => simp at h
  | cons a as ih =>
    obtain ⟨x, hx, hxne⟩ := h
    rcases List.mem_cons.1 hx with rfl | hx
    · simp only [dotQ]
      exact add_pos_of_pos_of_nonneg (mul_self_pos.2 hxne) (dotQ_self_nonneg as)
    · simp only [dotQ]
      exact add_pos_of_nonneg_of_pos (mul_self_nonneg a) (ih ⟨x, hx, hxne⟩)

theorem vecNorm_eq_zero_iff (v : List ℚ) : vecNorm v = 0 ↔ sumSq v = 0 := by
  unfold vecNorm
  rw [Real.sqrt_eq_zero (by exact_mod_cast sumSq_nonneg v)]
  exact_mod_cast Iff.rfl

theorem cosine_zero_of_sumSq_left {v1 : List ℚ} (v2 : List ℚ) (h : sumSq v1 = 0) :
    cosine_similarity v1 v2 = 0 := by
  unfold cosine_similarity
  rw [if_pos (Or.inl ((vecNorm_eq_zero_iff v1).2 h))]

theorem cosine_self_eq_one {v : List ℚ} (h : sumSq v ≠ 0) :
    cosine_similarity v v = 1 := by
  have hn : vecNorm v ≠ 0 := fun hc => h ((vecNorm_eq_zero_iff v).1 hc)
  unfold cosine_similarity
  rw [if_neg (by push_neg; exact ⟨hn, hn⟩)]
  unfold vecNorm
  rw [Real.mul_self_sqrt (by exact_mod_cast sumSq_nonneg v)]
  unfold sumSq at h ⊢
  rw [div_self (by exact_mod_cast h)]

/-! ### Lemmas about the vocabulary -/

theorem allKmers_length (k : Nat) : (allKmers k).length = 4 ^ k := by
  induction k with
  | zero => simp [allKmers]
  | succ k ih =>
    simp [allKmers, baseChars, ih, pow_succ]
    ring

theorem mem_allKmers {k : Nat} {w : List Char} :
    w ∈ allKmers k ↔ w.length = k ∧ ∀ c ∈ w, c ∈ baseChars := by
  induction k generalizing w with
  | zero =>
    simp [allKmers, List.length_eq_zero]
    intro h
    subst h
    simp
  | succ k ih =>
    simp only [allKmers, List.mem_flatMap, List.mem_map]
    constructor
    · rintro ⟨b, hb, u, hu, rfl⟩
      obtain ⟨hlen, hc⟩ := ih.1 hu
      refine ⟨by simp [hlen], ?_⟩
      intro c hc'
      rcases List.mem_cons.1 hc' with rfl | h
      · exact hb
      · exact hc _ h
    · rintro ⟨hlen, hc⟩
      cases w with
      | nil => simp at hlen
      | cons b u =>
        exact ⟨b, hc b (List.mem_cons_self b u), u,
          ih.2 ⟨by simpa using hlen, fun c h => hc c (List.mem_cons_of_mem _ h)⟩, rfl⟩

theorem allKmers_nodup (k : Nat) : (allKmers k).Nodup := by
  induction k with
  | zero => simp [allKmers]
  | succ k ih =>
    refine List.nodup_flatMap.2 ⟨fun b _ => ih.map (fun u v h => by injection h), ?_⟩
    refine List.Pairwise.imp ?_ (show baseChars.Pairwise (· ≠ ·) by decide)
    intro b b' hne x hx hx'
    simp only [List.mem_map] at hx hx'
    obtain ⟨u, _, hu⟩ := hx
    obtain ⟨v, _, hv⟩ := hx'
    rw [← hu] at hv
    injection hv with h1 _
    exact hne h1.symm

theorem mem_tokenize_mem_allKmers {k : Nat} {s w : List Char}
    (h : w ∈ tokenize k s) : w ∈ allKmers k := by
  unfold tokenize at h
  rw [List.mem_filter] at h
  obtain ⟨hw, hv⟩ := h
  unfold windows at hw
  simp only [List.mem_map, List.mem_range] at hw
  obtain ⟨i, hi, rfl⟩ := hw
  rw [mem_allKmers]
  constructor
  · rw [List.length_take, List.length_drop]
    omega
  · intro c hc
    have := List.all_eq_true.1 hv c hc
    simpa using this

/-! ### Counting and normalization lemmas for `vectorize` -/

theorem sum_map_ite_zero {α : Type} [DecidableEq α] {l : List α} {a : α}
    (ha : a ∉ l) : (l.map (fun w => if w = a then 1 else 0)).sum = 0 := by
  induction l with
  | nil => simp
  | cons b bs ih =>
    have hb : b ≠ a := fun h => ha (h ▸ List.mem_cons_self b bs)
    simp [hb, ih (fun h => ha (List.mem_cons_of_mem b h))]

theorem sum_map_ite_one {α : Type} [DecidableEq α] {l : List α} {a : α}
    (hd : l.Nodup) (ha : a ∈ l) : (l.map (fun w => if w = a then 1 else 0)).sum = 1 := by
  induction l with
  | nil => simp at ha
  | cons b bs ih =>
    rw [List.nodup_cons] at hd
    rcases List.mem_cons.1 ha with rfl | ha'
    · simp [sum_map_ite_zero hd.1]
    · have hb : b ≠ a := fun h => hd.1 (h ▸ ha')
      simp [hb, ih hd.2 ha']

theorem sum_map_add_nat {α : Type} (l : List α) (f g : α → ℕ) :
    (l.map (fun x => f x + g x)).sum = (l.map f).sum + (l.map g).sum := by
  induction l with
  | nil => simp
  | cons a as ih =>
    simp only [List.map_cons, List.sum_cons, ih]
    omega

theorem sum_map_count {vocab : List (List Char)} (kmers : List (List Char))
    (hd : vocab.Nodup) (hm : ∀ x ∈ kmers, x ∈ vocab) :
    (vocab.map (fun w => kmers.count w)).sum = kmers.length := by
  induction kmers with
  | nil => simp
  | cons a as ih =>
    have ha : a ∈ vocab := hm a (List.mem_cons_self a as)
    have has : ∀ x ∈ as, x ∈ vocab := fun x hx => hm x (List.mem_cons_of_mem a hx)
    have hcount : (fun w => (a :: as).count w) =
        (fun w => as.count w + if w = a then 1 else 0) := by
      funext w
      simp only [List.count_cons, beq_iff_eq]
      by_cases h : a = w
      · simp [h]
      · simp [h, show w ≠ a from fun hh => h hh.symm]
    rw [hcount, sum_map_add_nat, ih has, sum_map_ite_one hd ha, List.length_cons]

theorem sum_map_cast {α : Type} (l : List α) (f : α → ℕ) :
    (l.map (fun w => (f w : ℚ))).sum = ((l.map f).sum : ℚ) := by
  induction l with
  | nil => simp
  | cons a as ih => simp [ih]

theorem rawCounts_sum (k : Nat) (s : List Char) :
    (rawCounts k s).sum = ((tokenize k s).length : ℚ) := by
  unfold rawCounts
  rw [sum_map_cast,
    sum_map_count (tokenize k s) (allKmers_nodup k) (fun x hx => mem_tokenize_mem_allKmers hx)]

theorem sum_map_div (l : List ℚ) (t : ℚ) :
    (l.map (fun x => x / t)).sum = l.sum / t := by
  induction l with
  | nil => simp
  | cons a as ih => simp [ih, add_div]

theorem vectorize_sum_eq_one {k : Nat} {s : List Char} (h : tokenize k s ≠ []) :
    (vectorize k s).sum = 1 := by
  unfold vectorize
  have ht : (tokenize k s).length ≠ 0 := by
    simpa [List.length_eq_zero] using h
  rw [if_neg ht, sum_map_div, rawCounts_sum,
    div_self (by exact_mod_cast ht)]

theorem vectorize_eq_zero {k : Nat} {s : List Char} (h : tokenize k s = []) :
    vectorize k s = List.replicate (4 ^ k) 0 := by
  unfold vectorize rawCounts
  rw [if_pos (by simp [h]), h]
  simp only [List.count_nil, Nat.cast_zero]
  rw [List.map_const', allKmers_length]

theorem sumSq_replicate_zero (n : Nat) : sumSq (List.replicate n 0) = 0 := by
  induction n with
  | zero => simp [sumSq, dotQ]
  | succ n ih => simpa [sumSq, dotQ, List.replicate_succ] using ih

/-! ### Lemmas about the stable descending sort -/

/-- Descending order on match lists: each element's score bounds the
scores of all later elements from above. -/
def SortedDesc (l : List MatchResult) : Prop :=
  l.Pairwise (fun a b => b.similarity_score ≤ a.similarity_score)

/-- The sublist of matches whose score equals `c`; used to express that
the sort is stable (ties keep their original relative order). -/
noncomputable def scoreFilter (c : ℝ) : List MatchResult → List MatchResult
  | [] => []
  | x :: xs => if x.similarity_score = c then x :: scoreFilter c xs else scoreFilter c xs

theorem insertDesc_perm (m : MatchResult) (l : List MatchResult) :
    (insertDesc m l).Perm (m :: l) := by
  induction l with
  | nil => simp [insertDesc]
  | cons x xs ih =>
    unfold insertDesc
    by_cases h : x.similarity_score ≤ m.similarity_score
    · rw [if_pos h]
    · rw [if_neg h]
      exact (ih.cons x).trans (List.Perm.swap m x xs)

theorem sortDesc_perm (l : List MatchResult) : (sortDesc l).Perm l := by
  induction l with
  | nil => simp [sortDesc]
  | cons a l ih =>
    exact (insertDesc_perm a (sortDesc l)).trans (ih.cons a)

theorem sortDesc_length (l : List MatchResult) : (sortDesc l).length = l.length :=
  (sortDesc_perm l).length_eq

theorem insertDesc_sorted {l : List MatchResult} (m : MatchResult)
    (h : SortedDesc l) : SortedDesc (insertDesc m l) := by
  induction l with
  | nil => simp [insertDesc, SortedDesc]
  | cons x xs ih =>
    rw [SortedDesc, List.pairwise_cons] at h
    unfold insertDesc
    by_cases hc : x.similarity_score ≤ m.similarity_score
    · rw [if_pos hc]
      refine List.Pairwise.cons ?_ (List.Pairwise.cons h.1 h.2)
      intro y hy
      rcases List.mem_cons.1 hy with rfl | hy'
      · exact hc
      · exact le_trans (h.1 y hy') hc
    · rw [if_neg hc]
      refine List.Pairwise.cons ?_ (ih h.2)
      intro y hy
      have hy2 : y ∈ m :: xs := (insertDesc_perm m xs).subset hy
      rcases List.mem_cons.1 hy2 with rfl | hy'
      · exact le_of_lt (lt_of_not_le hc)
      · exact h.1 y hy'

theorem sortDesc_sorted (l : List MatchResult) : SortedDesc (sortDesc l) := by
  induction l with
  | nil => simp [sortDesc, SortedDesc]
  | cons a l ih => exact insertDesc_sorted a ih

theorem insertDesc_scoreFilter (c : ℝ) (m : MatchResult) (l : List MatchResult) :
    scoreFilter c (insertDesc m l) =
      if m.similarity_score = c then m :: scoreFilter c l else scoreFilter c l := by
  induction l with
  | nil => simp [insertDesc, scoreFilter]
  | cons x xs ih =>
    unfold insertDesc
    by_cases hc : x.similarity_score ≤ m.similarity_score
    · rw [if_pos hc]
      simp [scoreFilter]
    · rw [if_neg hc]
      have hlt : c = m.similarity_score → x.similarity_score ≠ c := by
        rintro rfl h
        exact hc (le_of_eq h)
      by_cases hm : m.similarity_score = c
      · rw [if_pos hm]
        simp only [scoreFilter, ih, if_pos hm, if_neg (hlt hm.symm)]
      · rw [if_neg hm]
        simp only [scoreFilter, ih, if_neg hm]

theorem sortDesc_scoreFilter (c : ℝ) (l : List MatchResult) :
    scoreFilter c (sortDesc l) = scoreFilter c l := by
  induction l with
  | nil => simp [sortDesc]
  | cons a l ih =>
    simp only [sortDesc, insertDesc_scoreFilter, ih, scoreFilter]

/-! ### Engine-level helper lemmas -/

theorem query_ok {db : ReferenceDatabase} {s : List Char} (top_k : Nat)
    (h1 : s ≠ []) (h2 : db.k ≤ s.length) :
    query_single_sequence db s top_k =
      .ok { query_sequence := s
            query_length := s.length
            matches_found := ((sortDesc (matchList db s)).take top_k).length
            results := (sortDesc (matchList db s)).take top_k } := by
  unfold query_single_sequence
  rw [if_neg (by push_neg; exact ⟨h1, h2⟩)]

theorem query_ok_inv {db : ReferenceDatabase} {s : List Char} {top_k : Nat} {r : QueryResult}
    (h : query_single_sequence db s top_k = .ok r) :
    r.results = (sortDesc (matchList db s)).take top_k := by
  unfold query_single_sequence at h
  by_cases hc : s = [] ∨ s.length < db.k
  · rw [if_pos hc] at h
    exact absurd h (by simp)
  · rw [if_neg hc] at h
    have := Except.ok.inj h
    rw [← this]

/-- A tokenization with no valid k-mer makes every score zero, because
the query vector is all zeros and `cosine_similarity` hits its zero-norm
guard. -/
theorem score_zero_of_tokenize_nil {db : ReferenceDatabase} {s : List Char}
    (ht : tokenize db.k s = []) {m : MatchResult} (hm : m ∈ matchList db s) :
    m.similarity_score = 0 := by
  unfold matchList at hm
  rw [List.mem_map] at hm
  obtain ⟨e, _, rfl⟩ := hm
  show cosine_similarity (vectorize db.k s) e.vector = 0
  apply cosine_zero_of_sumSq_left
  rw [vectorize_eq_zero ht]
  exact sumSq_replicate_zero _

theorem mem_take_sortDesc {l : List MatchResult} {n : Nat} {m : MatchResult}
    (h : m ∈ (sortDesc l).take n) : m ∈ l :=
  (sortDesc_perm l).subset (List.mem_of_mem_take h)

/-- A sequence shorter than k has no windows at all, hence no valid
k-mers. -/
theorem tokenize_nil_of_short {k : Nat} {s : List Char} (h : s.length < k) :
    tokenize k s = [] := by
  unfold tokenize windows
  have : (normalize s).length + 1 - k = 0 := by
    unfold normalize
    rw [List.length_map]
    omega
  rw [this]
  rfl

theorem matchList_length (db : ReferenceDatabase) (s : List Char) :
    (matchList db s).length = db.sequences.length := by
  unfold matchList
  rw [List.length_map]

theorem dedup_const {α : Type} [DecidableEq α] {l : List α} {a : α}
    (h : ∀ x ∈ l, x = a) (hne : l ≠ []) : l.dedup = [a] := by
  induction l with
  | nil => exact absurd rfl hne
  | cons b bs ih =>
    have hb : b = a := h b (List.mem_cons_self b bs)
    subst hb
    cases bs with
    | nil => simp
    | cons c cs =>
      have hmem : b ∈ c :: cs := by
        have hc : c = b := h c (by simp)
        rw [hc]
        exact List.mem_cons_self b cs
      rw [List.dedup_cons_of_mem hmem]
      exact ih (fun x hx => h x (List.mem_cons_of_mem b hx)) (by simp)

/-! ### Claim theorems -/

/-- Claim C2: for every sequence and every k, `vectorize` sums to exactly 1
when the sequence yields at least one valid k-mer (each count divided by
the number of valid k-mers), and is the all-zero vector (no error) when
zero valid k-mers are found. -/
theorem claim_vectorize_sum_one_or_zero (k : Nat) (s : List Char) :
    (tokenize k s ≠ [] → (vectorize k s).sum = 1) ∧
    (tokenize k s = [] → vectorize k s = List.replicate (4 ^ k) 0) :=
  ⟨vectorize_sum_eq_one, vectorize_eq_zero⟩

theorem claim_vectorize_sum_one_or_zero_witness :
    (tokenize 6 "AAAAAA".data ≠ [] ∧ (vectorize 6 "AAAAAA".data).sum = 1) ∧
    (tokenize 6 "ATCG".data = [] ∧ vectorize 6 "ATCG".data = List.replicate (4 ^ 6) 0) :=
  ⟨⟨by decide, (claim_vectorize_sum_one_or_zero 6 "AAAAAA".data).1 (by decide)⟩,
   ⟨by decide, (claim_vectorize_sum_one_or_zero 6 "ATCG".data).2 (by decide)⟩⟩

/-- Claim C5: `cosine_similarity` returns exactly 0 whenever either
equal-length argument has zero Euclidean norm, and returns 1 when a
non-zero vector is compared with itself. -/
theorem claim_cosine_zero_norm_and_self :
    (∀ v1 v2 : List ℚ, v1.length = v2.length →
      vecNorm v1 = 0 ∨ vecNorm v2 = 0 → cosine_similarity v1 v2 = 0) ∧
    (∀ v : List ℚ, (∃ x ∈ v, x ≠ 0) → cosine_similarity v v = 1) := by
  constructor
  · intro v1 v2 _ h
    unfold cosine_similarity
    rw [if_pos h]
  · intro v h
    exact cosine_self_eq_one (ne_of_gt (dotQ_self_pos h))

theorem claim_cosine_zero_norm_and_self_witness :
    cosine_similarity [0] [0] = 0 ∧ cosine_similarity [1] [1] = 1 := by
  constructor
  · exact claim_cosine_zero_norm_and_self.1 [0] [0] rfl
      (Or.inl ((vecNorm_eq_zero_iff [0]).2 (by simp [sumSq, dotQ])))
  · exact claim_cosine_zero_norm_and_self.2 [1] ⟨1, by simp, by norm_num⟩

/-- Claim C4: a sequence whose length is below k makes
`query_single_sequence` fail, before any encoding, with the `ValueError`
whose message cites the required minimum length k. -/
theorem claim_query_short_sequence_error (db : ReferenceDatabase) (s : List Char)
    (top_k : Nat) (h : s.length < db.k) :
    query_single_sequence db s top_k = .error (.invalidInput (minLenMsg db.k)) ∧
    ∃ pre post, minLenMsg db.k = pre ++ toString db.k ++ post := by
  constructor
  · unfold query_single_sequence
    rw [if_pos (Or.inr h)]
  · exact ⟨"Sequence must be at least ", " bases long", rfl⟩

theorem claim_query_short_sequence_error_witness :
    query_single_sequence ⟨6, []⟩ "ATCG".data 5 = .error (.invalidInput (minLenMsg 6)) ∧
    ∃ pre post, minLenMsg 6 = pre ++ toString 6 ++ post :=
  claim_query_short_sequence_error ⟨6, []⟩ "ATCG".data 5 (by decide)

/-- Claim C6: saving a database and loading from the same location
restores an identical database — same entries, identifiers, taxonomy,
sequences and exact vector values, in the same order. -/
theorem claim_save_load_roundtrip (db : ReferenceDatabase) (σ : Storage) (loc : String) :
    dbLoad db (dbSave db σ loc) loc = .ok (true, db) := by
  simp [dbLoad, dbSave]

/-- Claim C7: `load` returns false leaving entries unchanged when the
location is missing, returns true replacing the entries when it holds a
pickled entry list, and lets the deserialization error propagate when
the contents are corrupt. -/
theorem claim_load_missing_found_corrupt (db : ReferenceDatabase) (σ : Storage)
    (loc : String) :
    (σ loc = none → dbLoad db σ loc = .ok (false, db)) ∧
    (∀ es, σ loc = some (.entries es) →
      dbLoad db σ loc = .ok (true, { db with sequences := es })) ∧
    (σ loc = some .corrupt → dbLoad db σ loc = .error .unpicklingError) :=
  ⟨fun h => by simp [dbLoad, h],
   fun es h => by simp [dbLoad, h],
   fun h => by simp [dbLoad, h]⟩

theorem claim_load_missing_found_corrupt_witness :
    dbLoad ⟨6, []⟩ (fun _ => none) "db.pkl" = .ok (false, ⟨6, []⟩) ∧
    dbLoad ⟨6, []⟩ (fun _ => some (.entries [default])) "db.pkl" =
      .ok (true, ⟨6, [default]⟩) ∧
    dbLoad ⟨6, []⟩ (fun _ => some .corrupt) "db.pkl" = .error .unpicklingError :=
  ⟨(claim_load_missing_found_corrupt ⟨6, []⟩ (fun _ => none) "db.pkl").1 rfl,
   (claim_load_missing_found_corrupt ⟨6, []⟩ (fun _ => some (.entries [default]))
     "db.pkl").2.1 [default] rfl,
   (claim_load_missing_found_corrupt ⟨6, []⟩ (fun _ => some .corrupt) "db.pkl").2.2 rfl⟩

/-- Claim C3: for a query passing the length precondition,
`query_single_sequence` builds one match per store entry, sorts them by
score descending with ties kept in store order (stable sort), truncates
to `top_k`, returns everything when `top_k` exceeds the store size, and
returns zero matches for an empty store. -/
theorem claim_query_ranking (db : ReferenceDatabase) (s : List Char) (top_k : Nat)
    (h1 : s ≠ []) (h2 : db.k ≤ s.length) :
    ∃ r, query_single_sequence db s top_k = .ok r ∧
      r.results = (sortDesc (matchList db s)).take top_k ∧
      (matchList db s).length = db.sequences.length ∧
      (sortDesc (matchList db s)).Perm (matchList db s) ∧
      SortedDesc (sortDesc (matchList db s)) ∧
      (∀ c : ℝ, scoreFilter c (sortDesc (matchList db s)) = scoreFilter c (matchList db s)) ∧
      r.results.length = min top_k db.sequences.length ∧
      (db.sequences.length ≤ top_k → r.results = sortDesc (matchList db s)) ∧
      (db.sequences = [] → r.results = []) := by
  refine ⟨_, query_ok top_k h1 h2, rfl, matchList_length db s, sortDesc_perm _,
    sortDesc_sorted _, fun c => sortDesc_scoreFilter c _, ?_, ?_, ?_⟩
  · rw [List.length_take, sortDesc_length, matchList_length]
  · intro hle
    exact List.take_of_length_le (by rw [sortDesc_length, matchList_length]; exact hle)
  · intro hnil
    have : matchList db s = [] := by
      unfold matchList
      rw [hnil]
      rfl
    rw [this]
    simp [sortDesc]

theorem claim_query_ranking_witness :
    ∃ r, query_single_sequence
        ⟨6, [⟨"s1", "e1", [], none, [1, 0]⟩, ⟨"s2", "e2", [], none, [0, 1]⟩]⟩
        "AAAAAA".data 1 = .ok r ∧
      r.results = (sortDesc (matchList
        ⟨6, [⟨"s1", "e1", [], none, [1, 0]⟩, ⟨"s2", "e2", [], none, [0, 1]⟩]⟩
        "AAAAAA".data)).take 1 ∧
      (matchList ⟨6, [⟨"s1", "e1", [], none, [1, 0]⟩, ⟨"s2", "e2", [], none, [0, 1]⟩]⟩
        "AAAAAA".data).length = 2 ∧
      (sortDesc (matchList
        ⟨6, [⟨"s1", "e1", [], none, [1, 0]⟩, ⟨"s2", "e2", [], none, [0, 1]⟩]⟩
        "AAAAAA".data)).Perm (matchList
        ⟨6, [⟨"s1", "e1", [], none, [1, 0]⟩, ⟨"s2", "e2", [], none, [0, 1]⟩]⟩
        "AAAAAA".data) ∧
      SortedDesc (sortDesc (matchList
        ⟨6, [⟨"s1", "e1", [], none, [1, 0]⟩, ⟨"s2", "e2", [], none, [0, 1]⟩]⟩
        "AAAAAA".data)) ∧
      (∀ c : ℝ, scoreFilter c (sortDesc (matchList
        ⟨6, [⟨"s1", "e1", [], none, [1, 0]⟩, ⟨"s2", "e2", [], none, [0, 1]⟩]⟩
        "AAAAAA".data)) = scoreFilter c (matchList
        ⟨6, [⟨"s1", "e1", [], none, [1, 0]⟩, ⟨"s2", "e2", [], none, [0, 1]⟩]⟩
        "AAAAAA".data)) ∧
      r.results.length = min 1 2 ∧
      (2 ≤ 1 → r.results = sortDesc (matchList
        ⟨6, [⟨"s1", "e1", [], none, [1, 0]⟩, ⟨"s2", "e2", [], none, [0, 1]⟩]⟩
        "AAAAAA".data)) ∧
      ([⟨"s1", "e1", [], none, [1, 0]⟩, ⟨"s2", "e2", [], none, [0, 1]⟩] =
        ([] : List RefEntry) → r.results = []) :=
  claim_query_ranking
    ⟨6, [⟨"s1", "e1", [], none, [1, 0]⟩, ⟨"s2", "e2", [], none, [0, 1]⟩]⟩
    "AAAAAA".data 1 (by decide) (by decide)

/-- Claim C9: a sequence of valid length in which every window contains a
symbol outside {A,T,C,G} does not raise: the query vector is all zeros
and every returned match scores exactly 0. -/
theorem claim_query_invalid_symbols_zero_scores (db : ReferenceDatabase)
    (s : List Char) (top_k : Nat) (hk : db.k ≤ s.length)
    (hw : ∀ w ∈ windows db.k (normalize s), isValidKmer w = false) :
    ∃ r, query_single_sequence db s top_k = .ok r ∧
      r.results.length = min top_k db.sequences.length ∧
      ∀ m ∈ r.results, m.similarity_score = 0 := by
  have hs : s ≠ [] := by
    intro he
    subst he
    have h0 : db.k = 0 := by simpa using hk
    have hmem : ([] : List Char) ∈ windows db.k (normalize []) := by
      simp [windows, normalize, h0]
    have := hw [] hmem
    simp [isValidKmer] at this
  have ht : tokenize db.k s = [] := by
    unfold tokenize
    exact List.filter_eq_nil_iff.2 (fun w hwmem => by simp [hw w hwmem])
  refine ⟨_, query_ok top_k hs hk, ?_, ?_⟩
  · rw [List.length_take, sortDesc_length, matchList_length]
  · intro m hm
    exact score_zero_of_tokenize_nil ht (mem_take_sortDesc hm)

theorem claim_query_invalid_symbols_zero_scores_witness :
    ∃ r, query_single_sequence ⟨6, [⟨"s1", "e1", [], none, [1]⟩]⟩
        "XXXXXXXX".data 5 = .ok r ∧
      r.results.length = min 5 1 ∧
      ∀ m ∈ r.results, m.similarity_score = 0 :=
  claim_query_invalid_symbols_zero_scores ⟨6, [⟨"s1", "e1", [], none, [1]⟩]⟩
    "XXXXXXXX".data 5 (by decide) (by decide)

/-- A sequence tokenizing to exactly one k-mer is encoded as the
indicator of that k-mer over the vocabulary. -/
theorem vectorize_single {k : Nat} {s w : List Char} (h : tokenize k s = [w]) :
    vectorize k s = (allKmers k).map (fun u => if u = w then (1 : ℚ) else 0) := by
  unfold vectorize rawCounts
  rw [h]
  simp only [List.length_singleton]
  rw [if_neg one_ne_zero, List.map_map]
  have hfun : ((fun x : ℚ => x / ((1 : Nat) : ℚ)) ∘ (fun u => (([w].count u : ℕ) : ℚ))) =
      (fun u => if u = w then (1 : ℚ) else 0) := by
    funext u
    have hcnt : [w].count u = if u = w then 1 else 0 := by
      by_cases h2 : u = w
      · simp [h2]
      · simp [List.count_cons, List.count_nil, h2, show w ≠ u from fun hh => h2 hh.symm]
    simp [hcnt]
  rw [hfun]

/-- Claim C8: encoding `"AAAAAA"` with k = 6 yields 1 at the vocabulary
index of the k-mer `"AAAAAA"` and 0 at every other index. -/
theorem claim_vectorize_AAAAAA (i : Nat) (hi : i < (allKmers 6).length) :
    (vectorize 6 "AAAAAA".data).get? i =
      some (if i = vocabIndex 6 "AAAAAA".data then (1 : ℚ) else 0) := by
  have ht : tokenize 6 "AAAAAA".data = ["AAAAAA".data] := by decide
  have hidx0 : vocabIndex 6 "AAAAAA".data = 0 := by decide
  have h0 : (0 : Nat) < (allKmers 6).length := by
    rw [allKmers_length]
    norm_num
  have hget0 : (allKmers 6).get ⟨0, h0⟩ = "AAAAAA".data := by
    have hd : (allKmers 6).getD 0 [] = "AAAAAA".data := by decide
    rwa [List.getD_eq_get _ _ h0] at hd
  rw [vectorize_single ht, hidx0, List.get?_map, List.get?_eq_get hi]
  simp only [Option.map_some']
  congr 1
  by_cases hidx : i = 0
  · subst hidx
    rw [if_pos hget0, if_pos rfl]
  · have hg : (allKmers 6).get ⟨i, hi⟩ ≠ "AAAAAA".data := by
      intro hg
      apply hidx
      have h2 : (allKmers 6).get ⟨i, hi⟩ = (allKmers 6).get ⟨0, h0⟩ := by
        rw [hg, hget0]
      exact congrArg Fin.val ((allKmers_nodup 6).get_inj_iff.1 h2)
    rw [if_neg hg, if_neg hidx]

theorem claim_vectorize_AAAAAA_witness :
    0 < (allKmers 6).length ∧
    (vectorize 6 "AAAAAA".data).get? 0 =
      some (if 0 = vocabIndex 6 "AAAAAA".data then (1 : ℚ) else 0) :=
  ⟨by rw [allKmers_length]; norm_num,
   claim_vectorize_AAAAAA 0 (by rw [allKmers_length]; norm_num)⟩

/-- Claim C1 counterexample: a FASTA batch holding one record with a
header but no sequence lines (empty sequence, shorter than k = 6) is NOT
rejected: `query_fasta_sequences` returns a successful result with one
item instead of raising the per-sequence length error. -/
theorem counterexample_query_fasta_empty_sequence_ok :
    query_fasta_sequences ⟨6, []⟩ ">h".data 5 =
      .ok { total_sequences := 1
            results := [{ query_sequence_id := "h", query_length := 0, top_matches := [] }] } := by
  have hp : parse_fasta_content ">h".data = [⟨"h", []⟩] := by decide
  unfold query_fasta_sequences
  rw [hp]
  rw [if_neg (by simp)]
  unfold fastaItem matchList
  simp [sortDesc]

/-- Claim C1 (amended): `query_fasta_sequences` performs no per-sequence
length validation. Whenever the FASTA content parses to at least one
record, the call succeeds with one item per record; every record whose
sequence is shorter than k is scored against the whole store with every
similarity equal to 0 (its query vector is all zeros). Only a batch with
no parseable records raises the `ValueError`. -/
theorem claim_query_fasta_no_length_check (db : ReferenceDatabase)
    (content : List Char) (top_k : Nat)
    (h : parse_fasta_content content ≠ []) :
    query_fasta_sequences db content top_k =
      .ok { total_sequences := (parse_fasta_content content).length
            results := (parse_fasta_content content).map (fastaItem db top_k) } ∧
    ∀ r ∈ parse_fasta_content content, r.seq.length < db.k →
      (fastaItem db top_k r).top_matches.length = min top_k db.sequences.length ∧
      ∀ m ∈ (fastaItem db top_k r).top_matches, m.similarity_score = 0 := by
  constructor
  · unfold query_fasta_sequences
    rw [if_neg h]
  · intro r _ hshort
    have ht : tokenize db.k r.seq = [] := tokenize_nil_of_short hshort
    constructor
    · show ((sortDesc (matchList db r.seq)).take top_k).length = _
      rw [List.length_take, sortDesc_length, matchList_length]
    · intro m hm
      exact score_zero_of_tokenize_nil ht (mem_take_sortDesc hm)

theorem claim_query_fasta_no_length_check_witness :
    query_fasta_sequences ⟨6, []⟩ ">h".data 5 =
      .ok { total_sequences := (parse_fasta_content ">h".data).length
            results := (parse_fasta_content ">h".data).map (fastaItem ⟨6, []⟩ 5) } ∧
    ∀ r ∈ parse_fasta_content ">h".data, r.seq.length < 6 →
      (fastaItem ⟨6, []⟩ 5 r).top_matches.length = min 5 0 ∧
      ∀ m ∈ (fastaItem ⟨6, []⟩ 5 r).top_matches, m.similarity_score = 0 :=
  claim_query_fasta_no_length_check ⟨6, []⟩ ">h".data 5 (by decide)

/-- Claim C10 counterexample: building the store from empty FASTA content
(no records) leaves the store empty, and the summary then reports only a
zero total — it does not report one unique sample. -/
theorem counterexample_create_from_fasta_empty_summary :
    get_info (create_from_fasta ⟨6, []⟩ "".data none) = .emptyInfo ∧
    (get_info (create_from_fasta ⟨6, []⟩ "".data none)).uniqueSamples = none := by
  have hp : parse_fasta_content "".data = [] := by decide
  unfold create_from_fasta get_info
  rw [hp]
  simp [DBInfo.uniqueSamples]

/-- Claim C10 (amended): every entry built by `create_from_fasta` has the
constant `sample_id` `"reference"`, every match returned by a query
against such a store carries `sample_id` `"reference"`, and — provided
the FASTA produced at least one record — the summary reports exactly one
unique sample (an empty FASTA leaves the store empty and the summary
reports only a zero total). -/
theorem claim_create_from_fasta_reference_sample (db : ReferenceDatabase)
    (content : List Char) (tmap : Option (String → Option String)) :
    (∀ e ∈ (create_from_fasta db content tmap).sequences, e.sample_id = "reference") ∧
    (∀ s top_k r, query_single_sequence (create_from_fasta db content tmap) s top_k = .ok r →
      ∀ m ∈ r.results, m.sample_id = "reference") ∧
    ((create_from_fasta db content tmap).sequences ≠ [] →
      (get_info (create_from_fasta db content tmap)).uniqueSamples = some 1) := by
  have hsid : ∀ e ∈ (create_from_fasta db content tmap).sequences, e.sample_id = "reference" := by
    intro e he
    unfold create_from_fasta at he
    rw [List.mem_map] at he
    obtain ⟨r, _, rfl⟩ := he
    rfl
  refine ⟨hsid, ?_, ?_⟩
  · intro s top_k r hok m hm
    rw [query_ok_inv hok] at hm
    have hm2 := mem_take_sortDesc hm
    unfold matchList at hm2
    rw [List.mem_map] at hm2
    obtain ⟨e, he, rfl⟩ := hm2
    exact hsid e he
  · intro hne
    unfold get_info
    rw [if_neg hne]
    have hall : ∀ x ∈ (create_from_fasta db content tmap).sequences.map
        (fun e => e.sample_id), x = "reference" := by
      intro x hx
      rw [List.mem_map] at hx
      obtain ⟨e, he, rfl⟩ := hx
      exact hsid e he
    show some ((((create_from_fasta db content tmap).sequences.map
      (fun e => e.sample_id)).dedup).length) = some 1
    rw [dedup_const hall (by simpa using hne)]
    rfl

theorem claim_create_from_fasta_reference_sample_witness :
    ((create_from_fasta ⟨6, []⟩ ">x\nAC".data none).sequences ≠ []) ∧
    (get_info (create_from_fasta ⟨6, []⟩ ">x\nAC".data none)).uniqueSamples = some 1 :=
  ⟨by decide,
   (claim_create_from_fasta_reference_sample ⟨6, []⟩ ">x\nAC".data none).2.2 (by decide)⟩

end ASV
